import Mathlib

/-!
Verification of the nodeflow runtime (strblr/nodeflow).

The repository contains two event-emitter implementations:

* `src/examples/bun-react/src/app.tsx` defines the full `NodeFlow` class with
  `state`/`api` fields, an `init`/`_init` lifecycle, the `change` transaction
  method guarded by a `changing` flag, and a `Map`-of-`Set`s listener registry,
  together with the `create` composer that merges plugin fragments.
* `src/nodeflow.ts` defines a lighter `NodeFlow` class whose listener registry
  is a plain object mapping event names to arrays.

This file embeds both, shallowly: JS objects / Maps become insertion-ordered
association lists over `String` keys, listener references become `Nat` ids,
callbacks passed to `change` become a small command syntax interpreted by an
explicit state-passing function, and exceptions become an explicit success
flag threaded through the interpreters.
-/

set_option autoImplicit false

namespace NodeFlowSpec

/-- The part of the app.tsx `NodeFlow` instance that the `change` method reads
and writes: the public `state` field and the private re-entrancy flag
`changing`.  The state type `σ` is abstract (JS values). -/
structure ChInst (σ : Type) where
  state : σ
  changing : Bool
deriving Repr, DecidableEq

/-- Syntax of the callbacks handed to `change` and of nested plugin code:
sequencing, whole-object state replacement (`nodeflow.state = {...}` or any
other assignment, modeled as a function on the state), an explicit
`nodeflow.emit(name, payload)` call, a nested `nodeflow.change(() => body)`
call, and a thrown exception. -/
inductive Cmd (σ : Type) where
  | skip
  | seq (a b : Cmd σ)
  | setState (f : σ → σ)
  | emitEv (name : String) (payload : σ)
  | change (body : Cmd σ)
  | throwEx

/-- A trace of fired events: event name and the payload handed to listeners. -/
abbrev Trace (σ : Type) := List (String × σ)

/-- Interpreter for `Cmd`, embedding `change` from app.tsx lines 27-37:

    change(callback) {
      if (this.changing) { callback(); }
      else {
        this.changing = true;
        this.emit("beforeChange", this.state);
        callback();
        this.emit("change", this.state);
        this.changing = false;
      }
    }

Returns the instance after execution, the trace of events fired, and `true`
iff execution completed normally (`false`: an exception escaped).  There is no
try/finally in the source, so on an exception inside the callback the
`changing` flag is left as it stood and the trailing "change" emission and
flag reset are skipped. -/
def run {σ : Type} : Cmd σ → ChInst σ → ChInst σ × Trace σ × Bool
  | .skip, i => (i, [], true)
  | .seq a b, i =>
    match run a i with
    | (i1, t1, true) =>
      match run b i1 with
      | (i2, t2, ok) => (i2, t1 ++ t2, ok)
    | (i1, t1, false) => (i1, t1, false)
  | .setState f, i => ({ i with state := f i.state }, [], true)
  | .emitEv n p, i => (i, [(n, p)], true)
  | .throwEx, i => (i, [], false)
  | .change body, i =>
    if i.changing then
      run body i
    else
      match run body { i with changing := true } with
      | (i2, t, true) =>
        ({ i2 with changing := false },
          ("beforeChange", i.state) :: t ++ [("change", i2.state)], true)
      | (i2, t, false) => (i2, ("beforeChange", i.state) :: t, false)

/-- The callback never emits the instance-level event names through `emit`
itself: "beforeChange"/"change" are fired by the `change` method, and a
callback emitting those names directly would be indistinguishable from the
method's own firings in the observed trace. -/
def noSysEmit {σ : Type} : Cmd σ → Bool
  | .seq a b => noSysEmit a && noSysEmit b
  | .emitEv n _ => !(n == "beforeChange" || n == "change")
  | .change body => noSysEmit body
  | _ => true

/-- Number of events named `name` in a trace. -/
def evCount {σ : Type} (name : String) : Trace σ → Nat
  | [] => 0
  | e :: t => (if e.1 = name then 1 else 0) + evCount name t

/-! ### Association-list model of JS objects and Maps -/

/-- Property write `obj[k] = v` on an insertion-ordered object (also `Map.set`):
overwrite the value at the first entry holding the key, keeping its position,
or append the pair when the key is absent. -/
def setKey {V : Type} : List (String × V) → String → V → List (String × V)
  | [], k, v => [(k, v)]
  | p :: m, k, v => if p.1 == k then (k, v) :: m else p :: setKey m k v

/-- Property read `obj[k]` (also `Map.get`): value at the first entry holding
the key, if any. -/
def lookupKey {V : Type} : List (String × V) → String → Option V
  | [], _ => none
  | p :: m, k => if p.1 == k then some p.2 else lookupKey m k

/-- `Object.assign(target, src)` and spread `{...target, ...src}`: write each
entry of `src`, in order, into `target`. -/
def objAssign {V : Type} (target src : List (String × V)) : List (String × V) :=
  src.foldl (fun acc p => setKey acc p.1 p.2) target

/-- `Map.delete(k)`: drop the first (hence, with unique keys, the only) entry
holding the key. -/
def mapDelete {V : Type} : List (String × V) → String → List (String × V)
  | [], _ => []
  | p :: m, ev => if p.1 == ev then m else p :: mapDelete m ev

/-- The value a key ends up with under "later fragment wins": the last
fragment of the list that contains the key provides the value. -/
def lastWins {V : Type} : List (List (String × V)) → String → Option V
  | [], _ => none
  | frag :: rest, k =>
    match lastWins rest k with
    | some v => some v
    | none => lookupKey frag k

/-! ### The composer `create` (app.tsx lines 64-86) -/

/-- What `create` consumes of one plugin's return value: its `state` fragment,
its `api` fragment (method implementations identified by opaque tags of type
`W`), and its `init` thunk (identified by a `Nat` id; see `runInits`). -/
structure PluginDesc (V W : Type) where
  state : List (String × V)
  api : List (String × W)
  initId : Nat

/-- The instance `state` after `create`: starting from the fresh instance's
empty object, `Object.assign(instance.state, state)` for each plugin in list
order. -/
def createState {V W : Type} (ps : List (PluginDesc V W)) : List (String × V) :=
  ps.foldl (fun acc p => objAssign acc p.state) []

/-- The instance `api` after `create`: `Object.assign(instance.api, api)` for
each plugin in list order. -/
def createApi {V W : Type} (ps : List (PluginDesc V W)) : List (String × W) :=
  ps.foldl (fun acc p => objAssign acc p.api) []

/-! ### Lifecycle: composed init and teardown (app.tsx lines 20-25 and 76-81) -/

/-- Observable lifecycle side effects: plugin `i`'s init thunk ran, or the
cleanup it returned ran. -/
inductive LifeEv where
  | initRun (i : Nat)
  | cleanupRun (i : Nat)
deriving Repr, DecidableEq

/-- `inits.map(init => init())`: run the collected init thunks left to right.
Thunk `i` records `initRun i` and returns its cleanup (the cleanup of thunk
`i`, which records `cleanupRun i` when later invoked, is identified by `i`).
Returns the log of the run and the collected cleanups in the same order. -/
def runInits : List Nat → List LifeEv × List Nat
  | [] => ([], [])
  | i :: rest =>
    let (log, cs) := runInits rest
    (LifeEv.initRun i :: log, i :: cs)

/-- The composed `_init` installed by `create`:

    instance._init = () => {
      const cleanups = inits.map(init => init()).reverse();
      return () => { cleanups.forEach(cleanup => cleanup()); };
    };

Returns the log of the init runs and the reversed cleanup list held by the
returned teardown closure. -/
def composedInit (inits : List Nat) : List LifeEv × List Nat :=
  ((runInits inits).1, (runInits inits).2.reverse)

/-- Invoking the teardown returned by the composed `_init`:
`cleanups.forEach(cleanup => cleanup())`, each cleanup recording its event. -/
def runTeardown (cs : List Nat) : List LifeEv :=
  cs.map LifeEv.cleanupRun

/-- The lifecycle-relevant part of an instance: the private `initialized` flag
and the accumulated log of lifecycle side effects. -/
structure LifeInst where
  initialized : Bool
  log : List LifeEv
deriving Repr, DecidableEq

/-- `init()` from app.tsx lines 20-25:

    init() {
      if (!this.initialized) {
        this.initialized = true;
        this._init();
      }
    }

The composed `_init`'s returned teardown is discarded here; only the init runs
are appended to the log. -/
def initCall (inits : List Nat) (i : LifeInst) : LifeInst :=
  if i.initialized then i
  else { initialized := true, log := i.log ++ (composedInit inits).1 }

/-- `n` successive `init()` calls. -/
def initIter (inits : List Nat) : Nat → LifeInst → LifeInst
  | 0, i => i
  | n + 1, i => initIter inits n (initCall inits i)

/-- A freshly constructed, uninitialized instance. -/
def freshLife : LifeInst := { initialized := false, log := [] }

/-! ### Listener registries

app.tsx stores listeners in `private listeners = new Map<keyof E, Set<AnyFunction>>()`;
nodeflow.ts stores them in a plain object of arrays.  Handler references are
modeled as `Nat` ids; a `Set` is modeled as its insertion-ordered list of
distinct elements, an array as a plain list. -/

/-- A listener registry: event name to list of handler ids. -/
abbrev Registry := List (String × List Nat)

/-- `Set.add`: a set does not duplicate an already-present element. -/
def setAdd (ls : List Nat) (h : Nat) : List Nat :=
  if h ∈ ls then ls else ls ++ [h]

/-- `Set.delete`: remove the element (a set holds it at most once, so removing
every occurrence coincides). -/
def setDelete (ls : List Nat) (h : Nat) : List Nat :=
  ls.filter (fun x => !(x == h))

/-- `on` from app.tsx lines 46-51:

    const listeners = this.listeners.get(type) ?? new Set();
    listeners.add(handler);
    this.listeners.set(type, listeners);
-/
def onReg (reg : Registry) (ev : String) (h : Nat) : Registry :=
  setKey reg ev (setAdd ((lookupKey reg ev).getD []) h)

/-- `off` from app.tsx lines 53-61:

    const listeners = this.listeners.get(type);
    if (listeners) {
      listeners.delete(handler);
      if (listeners.size === 0) { this.listeners.delete(type); }
    }
-/
def offReg (reg : Registry) (ev : String) (h : Nat) : Registry :=
  match lookupKey reg ev with
  | none => reg
  | some ls =>
    let ls2 := setDelete ls h
    if ls2 = [] then mapDelete reg ev else setKey reg ev ls2

/-- The unsubscribe closure returned by `on`: `() => this.off(type, handler)`,
applied to whatever the registry holds when it is invoked. -/
def onUnsub (ev : String) (h : Nat) : Registry → Registry :=
  fun reg => offReg reg ev h

/-- Invoking a list of listeners in order (`listeners.forEach(l => l(data))`).
`throws h = true` means handler `h` raises when invoked.  An exception
propagates out of `forEach` at once: the ids invoked so far (including the
thrower) are recorded and the rest are skipped.  Returns the invoked ids and
`true` iff no listener threw. -/
def runListeners : List Nat → (Nat → Bool) → List Nat × Bool
  | [], _ => ([], true)
  | h :: rest, throws =>
    if throws h then ([h], false)
    else
      let (inv, ok) := runListeners rest throws
      (h :: inv, ok)

/-- `emit` from app.tsx lines 39-44 (nodeflow.ts lines 181-183 behave the same
way: `this.listeners[event]?.forEach(l => l(payload))`): look the event up; if
absent do nothing; otherwise `forEach` over the listeners. -/
def emitReg (reg : Registry) (ev : String) (throws : Nat → Bool) : List Nat × Bool :=
  match lookupKey reg ev with
  | none => ([], true)
  | some ls => runListeners ls throws

/-- `on` from nodeflow.ts line 170:
`(this.listeners[event] = this.listeners[event] || []).push(listener)` —
arrays admit duplicates. -/
def onA (reg : Registry) (ev : String) (h : Nat) : Registry :=
  setKey reg ev (((lookupKey reg ev).getD []) ++ [h])

/-- `off` from nodeflow.ts lines 173-179:

    if (!this.listeners[event]) return;
    this.listeners[event] = this.listeners[event]!.filter(l => l !== listener);

Note the filtered (possibly empty) array is written back under the key. -/
def offA (reg : Registry) (ev : String) (h : Nat) : Registry :=
  match lookupKey reg ev with
  | none => reg
  | some ls => setKey reg ev (ls.filter (fun x => !(x == h)))

/-- `emit` from nodeflow.ts lines 181-183. -/
def emitA (reg : Registry) (ev : String) (throws : Nat → Bool) : List Nat × Bool :=
  match lookupKey reg ev with
  | none => ([], true)
  | some ls => runListeners ls throws

/-- Registry well-formedness, app.tsx model: a `Map` holds each key once. -/
abbrev keysNodup (reg : Registry) : Prop :=
  (reg.map Prod.fst).Nodup

/-- Registry invariant claimed for the app.tsx model: no event is mapped to an
empty listener set. -/
abbrev noEmptySets (reg : Registry) : Prop :=
  ∀ p ∈ reg, p.2 ≠ []

/-- A full instance as `emit` sees it: `state`, `api` and the listener
registry (concrete value types suffice for observing that `emit` leaves the
instance untouched). -/
structure FullInst where
  state : List (String × Int)
  api : List (String × Nat)
  listeners : Registry
deriving Repr, DecidableEq

/-- `emit` at instance level: the method body reads `this.listeners` only and
assigns no field of `this`. -/
def emitInst (i : FullInst) (ev : String) (throws : Nat → Bool) :
    FullInst × List Nat × Bool :=
  match lookupKey i.listeners ev with
  | none => (i, [], true)
  | some ls => (i, runListeners ls throws)

/-! ### Concrete inputs used by the witnesses -/

/-- The spec's nested-change example: two nested `change` calls inside one
outer callback, each replacing the state. -/
def cbNested : Cmd Int :=
  Cmd.seq (Cmd.change (Cmd.setState (fun s => s + 1)))
    (Cmd.change (Cmd.setState (fun s => s + 1)))

/-- A fresh instance with integer state `0`, no change in progress. -/
def instInt0 : ChInst Int := { state := 0, changing := false }

/-- The spec's counter example: `state.count = state.count + 1` as a
whole-object replacement on a one-key record. -/
def cbCount : Cmd (List (String × Int)) :=
  Cmd.setState (fun s => setKey s "count" (((lookupKey s "count").getD 0) + 1))

/-- A fresh instance whose state is the record with `count: 0`. -/
def instCount0 : ChInst (List (String × Int)) :=
  { state := [("count", 0)], changing := false }

/-- A concrete registry: one listener (id 5) on event "a". -/
def regW : Registry := [("a", [5])]

/-- A concrete full instance with no listeners on event "e". -/
def fullW : FullInst :=
  { state := [("count", 0)], api := [("addNodes", 1)], listeners := regW }

/-- The spec's merge example: state fragments x:1 then x:2, y:3, and a
colliding api method addNode (implementations tagged 1 and 2). -/
def psW : List (PluginDesc Int Nat) :=
  [{ state := [("x", 1)], api := [("addNode", 1)], initId := 0 },
   { state := [("x", 2), ("y", 3)], api := [("addNode", 2)], initId := 1 }]

/-! ## Theorems -/

theorem evCount_append {σ : Type} (name : String) (t1 t2 : Trace σ) :
    evCount name (t1 ++ t2) = evCount name t1 + evCount name t2 := by
  induction t1 with
  | nil => simp [evCount]
  | cons e t ih => simp [evCount, ih, Nat.add_assoc]

/-- Inside an in-progress change (`changing = true`), no code path fires a
"beforeChange" or "change" event, and the flag stays set: nested `change`
calls degenerate to running their callback. -/
theorem run_changing {σ : Type} (c : Cmd σ) (i : ChInst σ)
    (hch : i.changing = true) (hno : noSysEmit c = true) :
    evCount "beforeChange" (run c i).2.1 = 0 ∧
      evCount "change" (run c i).2.1 = 0 ∧ (run c i).1.changing = true := by
  induction c generalizing i with
  | skip => simp [run, evCount, hch]
  | seq a b iha ihb =>
    simp only [noSysEmit, Bool.and_eq_true] at hno
    rcases h1 : run a i with ⟨i1, t1, ok1⟩
    have ha := iha i hch hno.1
    rw [h1] at ha
    cases ok1 with
    | false =>
      simp [run, h1, ha.1, ha.2.1, ha.2.2]
      exact ha.2.2
    | true =>
      have hb := ihb i1 ha.2.2 hno.2
      rcases h2 : run b i1 with ⟨i2, t2, ok2⟩
      rw [h2] at hb
      simp [run, h1, h2, evCount_append, ha.1, ha.2.1, hb.1, hb.2.1, hb.2.2]
      exact hb.2.2
  | setState f => simp [run, evCount, hch]
  | emitEv n p =>
    simp only [noSysEmit, Bool.not_eq_true', Bool.or_eq_false_iff, beq_eq_false_iff_ne,
      ne_eq] at hno
    simp [run, evCount, hch, hno.1, hno.2]
  | change body ih =>
    simp only [run, hch, if_true]
    exact ih i hch (by simpa [noSysEmit] using hno)
  | throwEx => simp [run, evCount, hch]

/-- C1. For every callback, an outermost `change` call (no change in
progress) that completes normally fires exactly one "beforeChange" and
exactly one "change" event, however many nested `change` calls the callback
makes; and a `change` call made while `changing = true` just runs its
callback — it is literally the same execution as the bare callback — firing
no additional "beforeChange"/"change" events.  (The callback is assumed not
to emit the two instance-level event names directly through `emit`.) -/
theorem change_fires_once {σ : Type} (cb : Cmd σ) (i : ChInst σ)
    (hno : noSysEmit cb = true) :
    (i.changing = false → (run (Cmd.change cb) i).2.2 = true →
      evCount "beforeChange" (run (Cmd.change cb) i).2.1 = 1 ∧
        evCount "change" (run (Cmd.change cb) i).2.1 = 1) ∧
    (i.changing = true →
      run (Cmd.change cb) i = run cb i ∧
        evCount "beforeChange" (run (Cmd.change cb) i).2.1 = 0 ∧
          evCount "change" (run (Cmd.change cb) i).2.1 = 0) := by
  constructor
  · intro hch hok
    have h := run_changing cb { i with changing := true } rfl hno
    rcases hr : run cb { i with changing := true } with ⟨i2, t, ok⟩
    rw [hr] at h
    cases ok with
    | false => simp [run, hch, hr] at hok
    | true =>
      simp [run, hch, hr, evCount, evCount_append, h.1, h.2.1]
  · intro hch
    have heq : run (Cmd.change cb) i = run cb i := by simp [run, hch]
    have h := run_changing cb i hch hno
    exact ⟨heq, by rw [heq]; exact ⟨h.1, h.2.1⟩⟩

theorem change_fires_once_witness :
    noSysEmit cbNested = true ∧ instInt0.changing = false ∧
      (run (Cmd.change cbNested) instInt0).2.2 = true ∧
      evCount "beforeChange" (run (Cmd.change cbNested) instInt0).2.1 = 1 ∧
      evCount "change" (run (Cmd.change cbNested) instInt0).2.1 = 1 :=
  ⟨rfl, rfl, rfl,
    ((change_fires_once cbNested instInt0 rfl).1 rfl rfl).1,
    ((change_fires_once cbNested instInt0 rfl).1 rfl rfl).2⟩

/-- C2 (code bug). `change` has no try/finally: when the callback throws on a
fresh instance, the exception propagates (`ok = false`), only "beforeChange"
has fired, and `changing` is left `true` forever — so a subsequent outermost
`change` call fires no "beforeChange"/"change" events at all, contradicting
the spec's requirement (sections 4.2 and 7) that the flag be released on all
exit paths and the instance remain usable. -/
theorem change_throw_wedges :
    (run (Cmd.change Cmd.throwEx) instInt0).2.2 = false ∧
    (run (Cmd.change Cmd.throwEx) instInt0).2.1 = [("beforeChange", 0)] ∧
    (run (Cmd.change Cmd.throwEx) instInt0).1 = { state := 0, changing := true } ∧
    (run (Cmd.change (Cmd.setState (fun s => s + 1)))
        (run (Cmd.change Cmd.throwEx) instInt0).1).2.1 = [] :=
  ⟨rfl, rfl, rfl, rfl⟩

/-- C3. For an outermost `change` whose callback completes normally, the
result is exactly: the callback's final state with the flag cleared, and the
trace "beforeChange" with the state from immediately before the callback ran,
then the callback's own emissions, then "change" with the state from
immediately after the callback ran — which is the instance's live state at
that moment, so after a whole-object replacement listeners receive the new
object. -/
theorem change_payloads {σ : Type} (cb : Cmd σ) (i : ChInst σ)
    (hch : i.changing = false)
    (hok : (run cb { i with changing := true }).2.2 = true) :
    run (Cmd.change cb) i =
      ({ (run cb { i with changing := true }).1 with changing := false },
        ("beforeChange", i.state) ::
          (run cb { i with changing := true }).2.1 ++
            [("change", (run cb { i with changing := true }).1.state)],
        true) := by
  rcases hr : run cb { i with changing := true } with ⟨i2, t, ok⟩
  rw [hr] at hok
  cases ok with
  | false => simp at hok
  | true => simp [run, hch, hr]

theorem change_payloads_witness :
    instCount0.changing = false ∧
      (run cbCount { instCount0 with changing := true }).2.2 = true ∧
      run (Cmd.change cbCount) instCount0 =
        ({ state := [("count", 1)], changing := false },
          [("beforeChange", [("count", 0)]), ("change", [("count", 1)])], true) :=
  ⟨rfl, rfl, (change_payloads cbCount instCount0 rfl rfl).trans (by decide)⟩

theorem lookupKey_setKey {V : Type} (m : List (String × V)) (k kq : String) (v : V) :
    lookupKey (setKey m k v) kq = if kq = k then some v else lookupKey m kq := by
  induction m with
  | nil =>
    by_cases h : kq = k
    · subst h; simp [setKey, lookupKey]
    · have hb : (k == kq) = false := beq_eq_false_iff_ne.mpr (fun hh => h hh.symm)
      simp [setKey, lookupKey, hb, h]
  | cons p m ih =>
    by_cases hp : p.1 = k
    · have hpb : (p.1 == k) = true := beq_iff_eq.mpr hp
      by_cases h : kq = k
      · subst h; simp [setKey, lookupKey, hpb]
      · have hb : (k == kq) = false := beq_eq_false_iff_ne.mpr (fun hh => h hh.symm)
        have hpq : (p.1 == kq) = false :=
          beq_eq_false_iff_ne.mpr (fun hh => h (hp.symm.trans hh).symm)
        simp [setKey, lookupKey, hpb, hb, hpq, h]
    · have hpb : (p.1 == k) = false := beq_eq_false_iff_ne.mpr hp
      by_cases h2 : p.1 = kq
      · have hq : ¬(kq = k) := fun hh => hp (h2.trans hh)
        have h2b : (p.1 == kq) = true := beq_iff_eq.mpr h2
        simp [setKey, lookupKey, hpb, h2b, hq]
      · have h2b : (p.1 == kq) = false := beq_eq_false_iff_ne.mpr h2
        simp [setKey, lookupKey, hpb, h2b, ih]

theorem lookupKey_mem {V : Type} (m : List (String × V)) (k : String) (v : V)
    (h : lookupKey m k = some v) : k ∈ m.map Prod.fst := by
  induction m with
  | nil => simp [lookupKey] at h
  | cons p m ih =>
    by_cases hp : p.1 = k
    · simp [hp]
    · simp only [lookupKey, beq_iff_eq, hp, if_false] at h
      simpa using Or.inr (ih h)

theorem lookupKey_objAssign {V : Type} (src target : List (String × V)) (k : String)
    (hnd : (src.map Prod.fst).Nodup) :
    lookupKey (objAssign target src) k =
      match lookupKey src k with
      | some v => some v
      | none => lookupKey target k := by
  induction src generalizing target with
  | nil => simp [objAssign, lookupKey]
  | cons p s ih =>
    simp only [List.map_cons, List.nodup_cons] at hnd
    have hfold : objAssign target (p :: s) = objAssign (setKey target p.1 p.2) s := rfl
    rw [hfold, ih _ hnd.2]
    by_cases hk : p.1 = k
    · have hnone : lookupKey s k = none := by
        cases hs : lookupKey s k with
        | none => rfl
        | some v =>
          have hm := lookupKey_mem s k v hs
          rw [← hk] at hm
          exact absurd hm hnd.1
      simp [lookupKey, hk, hnone, lookupKey_setKey]
    · have hne : ¬(k = p.1) := fun h => hk h.symm
      cases hs : lookupKey s k with
      | some v => simp [lookupKey, hk, hs]
      | none => simp [lookupKey, hk, hs, lookupKey_setKey, hne]

theorem lookupKey_foldl_assign {V : Type} (frags : List (List (String × V)))
    (acc : List (String × V)) (k : String)
    (h : ∀ f ∈ frags, (f.map Prod.fst).Nodup) :
    lookupKey (frags.foldl objAssign acc) k =
      match lastWins frags k with
      | some v => some v
      | none => lookupKey acc k := by
  induction frags generalizing acc with
  | nil => simp [lastWins]
  | cons f fs ih =>
    rw [List.foldl_cons, ih _ (fun g hg => h g (List.mem_cons_of_mem f hg))]
    cases hl : lastWins fs k with
    | some v => simp [lastWins, hl]
    | none =>
      rw [lookupKey_objAssign f acc k (h f (List.mem_cons_self f fs))]
      cases hf : lookupKey f k with
      | some v => simp [lastWins, hl, hf]
      | none => simp [lastWins, hl, hf]

/-- C4. For every plugin list whose fragments are well-formed objects (no
duplicate keys inside one fragment), the composed instance's `state` is the
shallow merge of each plugin's `state` fragment applied in list order, and
the `api` the shallow merge of each plugin's `api` fragment, with the key
contributed by several plugins resolving to the latest plugin's value: each
key reads back as the last fragment's value for it (and is absent when no
fragment contributes it). -/
theorem create_merge_lastWins {V W : Type} (ps : List (PluginDesc V W)) (k kq : String)
    (hs : ∀ p ∈ ps, ((p.state.map Prod.fst).Nodup))
    (ha : ∀ p ∈ ps, ((p.api.map Prod.fst).Nodup)) :
    lookupKey (createState ps) k = lastWins (ps.map (fun p => p.state)) k ∧
    lookupKey (createApi ps) kq = lastWins (ps.map (fun p => p.api)) kq := by
  constructor
  · have := lookupKey_foldl_assign (ps.map (fun p => p.state)) [] k
      (by intro f hf; rcases List.mem_map.1 hf with ⟨p, hp, rfl⟩; exact hs p hp)
    rw [List.foldl_map] at this
    rw [createState, this]
    cases lastWins (ps.map (fun p => p.state)) k <;> simp [lookupKey]
  · have := lookupKey_foldl_assign (ps.map (fun p => p.api)) [] kq
      (by intro f hf; rcases List.mem_map.1 hf with ⟨p, hp, rfl⟩; exact ha p hp)
    rw [List.foldl_map] at this
    rw [createApi, this]
    cases lastWins (ps.map (fun p => p.api)) kq <;> simp [lookupKey]

theorem create_merge_lastWins_witness :
    (∀ p ∈ psW, ((p.state.map Prod.fst).Nodup)) ∧
    (∀ p ∈ psW, ((p.api.map Prod.fst).Nodup)) ∧
    lookupKey (createState psW) "x" = lastWins (psW.map (fun p => p.state)) "x" ∧
    lookupKey (createApi psW) "addNode" = lastWins (psW.map (fun p => p.api)) "addNode" :=
  ⟨by decide, by decide,
    (create_merge_lastWins psW "x" "addNode" (by decide) (by decide)).1,
    (create_merge_lastWins psW "x" "addNode" (by decide) (by decide)).2⟩

theorem runInits_eq (l : List Nat) : runInits l = (l.map LifeEv.initRun, l) := by
  induction l with
  | nil => rfl
  | cons i rest ih => simp [runInits, ih]

/-- C5. For every plugin list, the composed init runs the collected init
thunks in registration order (the log of the init phase lists the thunks in
list order), and invoking the teardown it returns runs the individual plugin
cleanups in reverse registration order (the teardown log is the reversed
plugin list). -/
theorem teardown_reverse_order (inits : List Nat) :
    (composedInit inits).1 = inits.map LifeEv.initRun ∧
    runTeardown (composedInit inits).2 = (inits.reverse).map LifeEv.cleanupRun := by
  simp [composedInit, runTeardown, runInits_eq]

theorem initCall_of_initialized (inits : List Nat) (i : LifeInst)
    (h : i.initialized = true) : initCall inits i = i := by
  simp [initCall, h]

theorem initIter_of_initialized (inits : List Nat) (n : Nat) (i : LifeInst)
    (h : i.initialized = true) : initIter inits n i = i := by
  induction n with
  | zero => rfl
  | succ n ih => simp [initIter, initCall_of_initialized inits i h, ih]

/-- C6. `init()` is idempotent: for every number `n ≥ 1` of successive
`init()` calls on a fresh instance, the result equals that of a single call;
the first call flips `initialized` and runs every collected init thunk in
order, and each distinct plugin's thunk appears in the log exactly once. -/
theorem init_idempotent (inits : List Nat) (n : Nat) (hn : 1 ≤ n) :
    initIter inits n freshLife = initCall inits freshLife ∧
    (initIter inits n freshLife).initialized = true ∧
    (initIter inits n freshLife).log = inits.map LifeEv.initRun ∧
    (∀ j, inits.Nodup → j ∈ inits →
      ((initIter inits n freshLife).log).count (LifeEv.initRun j) = 1) := by
  obtain ⟨m, rfl⟩ : ∃ m, n = m + 1 := ⟨n - 1, (Nat.succ_pred_eq_of_pos hn).symm⟩
  have hinit : (initCall inits freshLife).initialized = true := by
    simp [initCall, freshLife]
  have h1 : initIter inits (m + 1) freshLife = initCall inits freshLife := by
    have hstep : initIter inits (m + 1) freshLife
        = initIter inits m (initCall inits freshLife) := rfl
    rw [hstep, initIter_of_initialized inits m _ hinit]
  have hlog : (initCall inits freshLife).log = inits.map LifeEv.initRun := by
    simp [initCall, freshLife, composedInit, runInits_eq]
  refine ⟨h1, by rw [h1]; exact hinit, by rw [h1, hlog], ?_⟩
  intro j hnd hj
  rw [h1, hlog]
  rw [List.count_map_of_injective _ _ (fun a b hab => by injection hab) j]
  exact List.count_eq_one_of_mem hnd hj

theorem init_idempotent_witness :
    1 ≤ 2 ∧
      initIter [4, 7, 9] 2 freshLife = initCall [4, 7, 9] freshLife ∧
      (initIter [4, 7, 9] 2 freshLife).initialized = true ∧
      (initIter [4, 7, 9] 2 freshLife).log = [4, 7, 9].map LifeEv.initRun ∧
      ((initIter [4, 7, 9] 2 freshLife).log).count (LifeEv.initRun 7) = 1 :=
  ⟨by decide, (init_idempotent [4, 7, 9] 2 (by decide)).1,
    (init_idempotent [4, 7, 9] 2 (by decide)).2.1,
    (init_idempotent [4, 7, 9] 2 (by decide)).2.2.1,
    (init_idempotent [4, 7, 9] 2 (by decide)).2.2.2 7 (by decide) (by decide)⟩

theorem runListeners_nothrow (ls : List Nat) :
    runListeners ls (fun _ => false) = (ls, true) := by
  induction ls with
  | nil => rfl
  | cons a ls ih => simp [runListeners, ih]

theorem runListeners_throw (pre post : List Nat) (b : Nat) (throws : Nat → Bool)
    (hpre : ∀ x ∈ pre, throws x = false) (hb : throws b = true) :
    runListeners (pre ++ b :: post) throws = (pre ++ [b], false) := by
  induction pre with
  | nil => simp [runListeners, hb]
  | cons a pre ih =>
    have ha : throws a = false := hpre a (List.mem_cons_self a pre)
    simp [runListeners, ha, ih (fun x hx => hpre x (List.mem_cons_of_mem a hx))]

theorem lookupKey_mem_pair {V : Type} (m : List (String × V)) (k : String) (v : V)
    (h : lookupKey m k = some v) : (k, v) ∈ m := by
  induction m with
  | nil => simp [lookupKey] at h
  | cons p m ih =>
    by_cases hp : (p.1 == k) = true
    · obtain ⟨p1, p2⟩ := p
      have hpk : p1 = k := beq_iff_eq.mp hp
      simp only [lookupKey, hp, if_true, Option.some.injEq] at h
      rw [← hpk, ← h]
      exact List.mem_cons_self (p1, p2) m
    · rw [lookupKey, if_neg hp] at h
      exact List.mem_cons_of_mem _ (ih h)

theorem setKey_lookup_self {V : Type} (m : List (String × V)) (k : String) (v : V)
    (h : lookupKey m k = some v) : setKey m k v = m := by
  induction m with
  | nil => simp [lookupKey] at h
  | cons p m ih =>
    obtain ⟨p1, p2⟩ := p
    by_cases hp : ((p1, p2).1 == k) = true
    · have hpk : p1 = k := beq_iff_eq.mp hp
      simp only [lookupKey, hp, if_true, Option.some.injEq] at h
      simp [setKey, hp, ← hpk, ← h]
    · rw [lookupKey, if_neg hp] at h
      rw [setKey, if_neg hp, ih h]

theorem mem_setKey {V : Type} (m : List (String × V)) (k : String) (v : V)
    (q : String × V) (h : q ∈ setKey m k v) : q ∈ m ∨ q = (k, v) := by
  induction m with
  | nil =>
    simp [setKey] at h
    exact Or.inr h
  | cons p m ih =>
    by_cases hp : (p.1 == k) = true
    · rw [setKey, if_pos hp] at h
      rcases List.mem_cons.mp h with h | h
      · exact Or.inr h
      · exact Or.inl (List.mem_cons_of_mem _ h)
    · rw [setKey, if_neg hp] at h
      rcases List.mem_cons.mp h with h | h
      · exact Or.inl (by rw [h]; exact List.mem_cons_self p m)
      · rcases ih h with h2 | h2
        · exact Or.inl (List.mem_cons_of_mem _ h2)
        · exact Or.inr h2

theorem mem_mapDelete {V : Type} (m : List (String × V)) (k : String)
    (q : String × V) (h : q ∈ mapDelete m k) : q ∈ m := by
  induction m with
  | nil => simp [mapDelete] at h
  | cons p m ih =>
    by_cases hp : (p.1 == k) = true
    · rw [mapDelete, if_pos hp] at h
      exact List.mem_cons_of_mem _ h
    · rw [mapDelete, if_neg hp] at h
      rcases List.mem_cons.mp h with h | h
      · rw [h]; exact List.mem_cons_self p m
      · exact List.mem_cons_of_mem _ (ih h)

theorem keys_setKey_sub {V : Type} (m : List (String × V)) (k kk : String) (v : V)
    (h : kk ∈ (setKey m k v).map Prod.fst) : kk ∈ m.map Prod.fst ∨ kk = k := by
  rcases List.mem_map.mp h with ⟨q, hq, rfl⟩
  rcases mem_setKey m k v q hq with h2 | h2
  · exact Or.inl (List.mem_map_of_mem Prod.fst h2)
  · exact Or.inr (by rw [h2])

theorem keysNodup_setKey {V : Type} (m : List (String × V)) (k : String) (v : V)
    (h : (m.map Prod.fst).Nodup) : ((setKey m k v).map Prod.fst).Nodup := by
  induction m with
  | nil => simp [setKey]
  | cons p m ih =>
    simp only [List.map_cons, List.nodup_cons] at h
    by_cases hp : (p.1 == k) = true
    · have hpk : p.1 = k := beq_iff_eq.mp hp
      rw [setKey, if_pos hp]
      simp only [List.map_cons, List.nodup_cons]
      exact ⟨hpk ▸ h.1, h.2⟩
    · rw [setKey, if_neg hp]
      simp only [List.map_cons, List.nodup_cons]
      refine ⟨?_, ih h.2⟩
      intro hmem
      rcases keys_setKey_sub m k p.1 v hmem with h2 | h2
      · exact h.1 h2
      · exact hp (beq_iff_eq.mpr h2)

theorem lookupKey_mapDelete_self {V : Type} (m : List (String × V)) (k : String)
    (hnd : (m.map Prod.fst).Nodup) : lookupKey (mapDelete m k) k = none := by
  induction m with
  | nil => rfl
  | cons p m ih =>
    simp only [List.map_cons, List.nodup_cons] at hnd
    by_cases hp : (p.1 == k) = true
    · rw [mapDelete, if_pos hp]
      have hpk : p.1 = k := beq_iff_eq.mp hp
      cases hs : lookupKey m k with
      | none => rfl
      | some v =>
        have hm := lookupKey_mem m k v hs
        rw [← hpk] at hm
        exact absurd hm hnd.1
    · rw [mapDelete, if_neg hp, lookupKey, if_neg hp]
      exact ih hnd.2

theorem setAdd_ne_nil (ls : List Nat) (h : Nat) : setAdd ls h ≠ [] := by
  unfold setAdd
  by_cases hm : h ∈ ls
  · simpa [hm] using List.ne_nil_of_mem hm
  · simp [hm]

/-- C7 counterexample: with listeners 1 and 2 both registered for event "e"
and listener 1 throwing, `emit` invokes only listener 1 — the exception does
prevent the remaining registered listener 2 from being invoked in that same
emit call. -/
theorem emit_throw_skips_rest_cex :
    emitReg [("e", [1, 2])] "e" (fun x => x == 1) = ([1], false) ∧
    2 ∉ (emitReg [("e", [1, 2])] "e" (fun x => x == 1)).1 := by
  constructor <;> decide

/-- C7 (amended). An exception thrown by a listener during `emit` propagates
out of the `forEach` at once: the listeners registered before the thrower are
invoked, the thrower is invoked, and the listeners registered after it are
not invoked in that emit call (no isolation). -/
theorem emit_throw_aborts_rest (reg : Registry) (ev : String) (throws : Nat → Bool)
    (pre post : List Nat) (b : Nat)
    (hl : lookupKey reg ev = some (pre ++ b :: post))
    (hpre : ∀ x ∈ pre, throws x = false) (hb : throws b = true) :
    emitReg reg ev throws = (pre ++ [b], false) := by
  simp [emitReg, hl, runListeners_throw pre post b throws hpre hb]

theorem emit_throw_aborts_rest_witness :
    lookupKey [("e", [1, 2])] "e" = some ([] ++ 1 :: [2]) ∧
      emitReg [("e", [1, 2])] "e" (fun x => x == 1) = ([] ++ [1], false) :=
  ⟨by decide,
    emit_throw_aborts_rest [("e", [1, 2])] "e" (fun x => x == 1) [] [2] 1
      (by decide) (fun x hx => absurd hx (List.not_mem_nil x)) (by decide)⟩

/-- C8. Registering a listener with `on` and then removing it with `off` (the
unsubscribe closure returned by `on` is definitionally a call to `off` with
the same event/listener pair) leaves the listener invoked zero times by a
subsequent `emit` of that event, and `off` with an unregistered listener
returns the registry unchanged (a no-op rather than an error).  Both the
Map/Set registry of app.tsx (`onReg`/`offReg`/`emitReg`) and the
object-of-arrays registry of nodeflow.ts (`onA`/`offA`/`emitA`) satisfy
this. -/
theorem on_off_cancel (reg : Registry) (ev : String) (h : Nat)
    (hk : keysNodup reg) (hne : noEmptySets reg) :
    ((emitReg (offReg (onReg reg ev h) ev h) ev (fun _ => false)).1.count h = 0) ∧
    (onUnsub ev h = fun r => offReg r ev h) ∧
    (h ∉ (lookupKey reg ev).getD [] → offReg reg ev h = reg) ∧
    ((emitA (offA (onA reg ev h) ev h) ev (fun _ => false)).1.count h = 0) ∧
    (h ∉ (lookupKey reg ev).getD [] → offA reg ev h = reg) := by
  refine ⟨?_, rfl, ?_, ?_, ?_⟩
  · have hon : lookupKey (onReg reg ev h) ev
        = some (setAdd ((lookupKey reg ev).getD []) h) := by
      simp [onReg, lookupKey_setKey]
    have hnotin : h ∉ setDelete (setAdd ((lookupKey reg ev).getD []) h) h := by
      simp [setDelete, List.mem_filter]
    by_cases hdel : setDelete (setAdd ((lookupKey reg ev).getD []) h) h = []
    · have hkon : keysNodup (onReg reg ev h) := keysNodup_setKey reg ev _ hk
      have hnone : lookupKey (mapDelete (onReg reg ev h) ev) ev = none :=
        lookupKey_mapDelete_self (onReg reg ev h) ev hkon
      simp [offReg, hon, hdel, emitReg, hnone]
    · have hoff : lookupKey (offReg (onReg reg ev h) ev h) ev
          = some (setDelete (setAdd ((lookupKey reg ev).getD []) h) h) := by
        simp [offReg, hon, hdel, lookupKey_setKey]
      simp [emitReg, hoff, runListeners_nothrow]
      exact List.count_eq_zero.mpr hnotin
  · intro hmem
    cases hl : lookupKey reg ev with
    | none => simp [offReg, hl]
    | some ls =>
      rw [hl] at hmem
      simp only [Option.getD_some] at hmem
      have hfe : setDelete ls h = ls := by
        apply List.filter_eq_self.mpr
        intro a ha
        simp only [Bool.not_eq_true', beq_eq_false_iff_ne, ne_eq]
        exact fun hh => hmem (hh ▸ ha)
      have hlsne : ls ≠ [] := hne (ev, ls) (lookupKey_mem_pair reg ev ls hl)
      simp [offReg, hl, hfe, hlsne, setKey_lookup_self reg ev ls hl]
  · have honA : lookupKey (onA reg ev h) ev
        = some (((lookupKey reg ev).getD []) ++ [h]) := by
      simp [onA, lookupKey_setKey]
    have hoffA : lookupKey (offA (onA reg ev h) ev h) ev
        = some ((((lookupKey reg ev).getD []) ++ [h]).filter (fun x => !(x == h))) := by
      simp [offA, honA, lookupKey_setKey]
    simp [emitA, hoffA, runListeners_nothrow]
    apply List.count_eq_zero.mpr
    simp [List.mem_filter]
  · intro hmem
    cases hl : lookupKey reg ev with
    | none => simp [offA, hl]
    | some ls =>
      rw [hl] at hmem
      simp only [Option.getD_some] at hmem
      have hfe : ls.filter (fun x => !(x == h)) = ls := by
        apply List.filter_eq_self.mpr
        intro a ha
        simp only [Bool.not_eq_true', beq_eq_false_iff_ne, ne_eq]
        exact fun hh => hmem (hh ▸ ha)
      simp [offA, hl, hfe, setKey_lookup_self reg ev ls hl]

theorem on_off_cancel_witness :
    keysNodup regW ∧ noEmptySets regW ∧
      ((emitReg (offReg (onReg regW "e" 7) "e" 7) "e" (fun _ => false)).1.count 7 = 0) ∧
      (7 ∉ (lookupKey regW "e").getD [] → offReg regW "e" 7 = regW) ∧
      ((emitA (offA (onA regW "e" 7) "e" 7) "e" (fun _ => false)).1.count 7 = 0) :=
  ⟨by decide, by decide,
    (on_off_cancel regW "e" 7 (by decide) (by decide)).1,
    (on_off_cancel regW "e" 7 (by decide) (by decide)).2.2.1,
    (on_off_cancel regW "e" 7 (by decide) (by decide)).2.2.2.1⟩

/-- C9 counterexample: in the nodeflow.ts implementation, an `off` call that
removes the last remaining listener for an event leaves the event key mapped
to an empty array in the registry, instead of removing the key. -/
theorem off_leaves_empty_array_cex :
    offA [("e", [1])] "e" 1 = [("e", [])] ∧
    lookupKey (offA [("e", [1])] "e" 1) "e" = some [] := by
  constructor <;> rfl

/-- C9 (amended). In the Map-based registry of app.tsx, `off` removing the
last remaining listener of an event deletes the event key itself, and both
`off` and `on` preserve the invariant that no event is mapped to an empty
listener set.  (The array-based registry of nodeflow.ts violates the original
claim: see the counterexample.) -/
theorem off_releases_key (reg : Registry) (ev : String) (h : Nat)
    (hk : keysNodup reg) (hne : noEmptySets reg) :
    (lookupKey reg ev = some [h] → lookupKey (offReg reg ev h) ev = none) ∧
    noEmptySets (offReg reg ev h) ∧
    noEmptySets (onReg reg ev h) := by
  refine ⟨?_, ?_, ?_⟩
  · intro hl
    have hdel : setDelete [h] h = [] := by simp [setDelete]
    simp only [offReg, hl, hdel, if_pos]
    exact lookupKey_mapDelete_self reg ev hk
  · cases hl : lookupKey reg ev with
    | none => simpa [offReg, hl] using hne
    | some ls =>
      by_cases hdel : setDelete ls h = []
      · simp only [offReg, hl, hdel, if_pos]
        intro q hq
        exact hne q (mem_mapDelete reg ev q hq)
      · simp only [offReg, hl, if_neg hdel]
        intro q hq
        rcases mem_setKey reg ev (setDelete ls h) q hq with h2 | h2
        · exact hne q h2
        · rw [h2]; exact hdel
  · intro q hq
    rcases mem_setKey reg ev (setAdd ((lookupKey reg ev).getD []) h) q hq with h2 | h2
    · exact hne q h2
    · rw [h2]; exact setAdd_ne_nil _ h

theorem off_releases_key_witness :
    keysNodup [("e", [3])] ∧ noEmptySets [("e", [3])] ∧
      lookupKey [("e", [3])] "e" = some [3] ∧
      lookupKey (offReg [("e", [3])] "e" 3) "e" = none :=
  ⟨by decide, by decide, by decide,
    (off_releases_key [("e", [3])] "e" 3 (by decide) (by decide)).1 (by decide)⟩

/-- C10. `emit` for an event with no registered listeners returns normally,
invokes no listener, and leaves the instance — `state`, `api` and the
listener registry — exactly as it was before the call. -/
theorem emit_no_listeners (i : FullInst) (ev : String) (throws : Nat → Bool)
    (hl : lookupKey i.listeners ev = none) :
    emitInst i ev throws = (i, [], true) := by
  simp [emitInst, hl]

theorem emit_no_listeners_witness :
    lookupKey fullW.listeners "e" = none ∧
      emitInst fullW "e" (fun _ => true) = (fullW, [], true) :=
  ⟨by decide, emit_no_listeners fullW "e" (fun _ => true) (by decide)⟩

end NodeFlowSpec
